import Mathlib

/-
Verification of the `gorestclient` package (src/restclient.go).

The development shallowly embeds the package into Lean:

* Go `error` values are the inductive `GoError`; `errors.Wrap err msg` and
  `fmt.Errorf "...: %w"` both render as `msg ++ ": " ++ cause` and are the
  `GoError.wrap` constructor.
* `path.Clean` / `path.Join` from the Go standard library are translated
  byte-for-byte (the lazybuf is the reversed character list `out`); the
  character-consuming loop takes an explicit fuel argument equal to the
  input length so that every definition stays executable.
* `net/url` is modelled to the extent the package exercises it: a `URL` is
  scheme/host/path (the package never touches userinfo, query, fragment or
  opaque parts), `url.Parse` on the path-only strings produced by
  `path.Join` fails exactly on control characters, and `ResolveReference`
  follows the `abs_path` branch of the Go implementation, including a
  faithful translation of `resolvePath`.
* `net/http` requests are method/url/body/header records; `Header.Set` is
  modelled for already-canonical keys; `http.NewRequestWithContext` keeps
  the method validation, and the context (cancellation only) is dropped.
* The HTTP transport, the JSON encoder for a request body, the JSON decoder
  for a response destination, and the configured hooks are modelled as
  explicit functions, since they are collaborators outside this package:
  a transport is `Request → Option Response × Option GoError` (the result
  pair of `(*http.Client).Do`), a body value is represented by the outcome
  of encoding it, and a response destination by the outcome of decoding a
  body into it.
-/

/-- Go `error` values as produced or consumed by this package. -/
inductive GoError where
  /-- `errors.New msg` and any other opaque error with message `msg`. -/
  | errorString (msg : String)
  /-- `errors.Wrap cause msg` (pkg/errors) and `fmt.Errorf "<msg>: %w" cause`:
      both render as `msg ++ ": " ++ cause.message`. -/
  | wrap (msg : String) (cause : GoError)
  /-- The `*url.Error` that `url.Parse` returns on a control character. -/
  | urlParseError (u : String)
  /-- `fmt.Errorf "net/http: invalid method %q" m` from `http.NewRequest`. -/
  | invalidMethod (m : String)
  deriving DecidableEq

/-- The string `(err).Error()` would produce in Go. -/
def GoError.message : GoError → String
  | .errorString m => m
  | .wrap m cause => m ++ ": " ++ cause.message
  | .urlParseError u =>
      "parse \x22" ++ u ++ "\x22: net/url: invalid control character in URL"
  | .invalidMethod m => "net/http: invalid method \x22" ++ m ++ "\x22"

/-- `var ErrBadStatusCode = errors.New("bad status code")` (restclient.go:59). -/
def ErrBadStatusCode : GoError := .errorString "bad status code"

/-- `strings.Contains s sub`, used to state properties of error messages. -/
def strContains (s sub : String) : Prop := sub.toList <:+: s.toList

instance (s sub : String) : Decidable (strContains s sub) :=
  List.decidableInfix sub.toList s.toList

namespace gopath

/-- The backtracking step of Go `path.Clean`'s `..` case:
    `for out.w > dotdot && out.index(out.w) != '/' { out.w-- }`.
    `out` is the clean buffer in reverse order, `last` the character most
    recently popped (`out.index(out.w)`). -/
def popLoop (dotdot : Nat) : Char → List Char → List Char
  | _, [] => []
  | last, c :: rest =>
    if dotdot < rest.length + 1 ∧ last ≠ '/' then popLoop dotdot c rest
    else c :: rest

/-- The full `..` backtrack: the unconditional `out.w--` followed by
    `popLoop`.  Callers guarantee `dotdot < out.length`. -/
def popSegment (dotdot : Nat) : List Char → List Char
  | [] => []
  | c :: rest => popLoop dotdot c rest

/-- The main loop of Go `path.Clean` (path/path.go), reading the input
    character list; `out` is the output buffer in reverse order, `dotdot`
    the index the `..` backtrack may not cross.  `fuel` bounds the number
    of iterations; every iteration consumes at least one input character,
    so `fuel = input.length` always suffices. -/
def cleanLoop (rooted : Bool) : Nat → List Char → List Char → Nat → List Char
  | 0, _, out, _ => out
  | fuel + 1, l, out, dotdot =>
    match l with
    | [] => out
    | c :: rest =>
      if c = '/' then
        -- empty path element
        cleanLoop rooted fuel rest out dotdot
      else if c = '.' ∧ (rest = [] ∨ rest.head? = some '/') then
        -- `.` element: skip the dot
        cleanLoop rooted fuel rest out dotdot
      else if c = '.' ∧ rest.head? = some '.' ∧
          (rest.tail = [] ∨ rest.tail.head? = some '/') then
        -- `..` element
        if dotdot < out.length then
          cleanLoop rooted fuel rest.tail (popSegment dotdot out) dotdot
        else if rooted = false then
          let out1 := '.' :: '.' :: (if 0 < out.length then '/' :: out else out)
          cleanLoop rooted fuel rest.tail out1 out1.length
        else
          cleanLoop rooted fuel rest.tail out dotdot
      else
        -- real path element: add slash if needed, copy the element
        let out1 :=
          if (rooted = true ∧ out.length ≠ 1) ∨ (rooted = false ∧ out.length ≠ 0)
          then '/' :: out else out
        cleanLoop rooted fuel (rest.dropWhile (· ≠ '/'))
          ((rest.takeWhile (· ≠ '/')).reverse ++ c :: out1) dotdot

/-- Go `path.Clean` (path/path.go). -/
def Clean (p : String) : String :=
  if p = "" then "."
  else
    let l := p.toList
    let rooted := l.head? == some '/'
    let out :=
      if rooted then cleanLoop true l.length l.tail ['/'] 1
      else cleanLoop false l.length l [] 0
    if out.length = 0 then "." else ⟨out.reverse⟩

/-- Go `path.Join` restricted to two elements, as called at
    restclient.go:97: the first nonempty element starts the join. -/
def Join (a b : String) : String :=
  if a ≠ "" then Clean (a ++ "/" ++ b)
  else if b ≠ "" then Clean b
  else ""

end gopath

namespace neturl

/-- A parsed URL, restricted to the parts this package reads or writes
    (scheme://host/path; the package never touches userinfo, port-specific
    handling, query, fragment or opaque parts). -/
structure URL where
  scheme : String
  host : String
  path : String
  deriving DecidableEq

/-- The relative URL `url.Parse` returns for the path-only strings
    produced by `path.Join` in `NewRequest`. -/
structure RelURL where
  path : String
  deriving DecidableEq

/-- `net/url`'s control-character test: `url.Parse` rejects URLs that
    contain an ASCII control character. -/
def containsCTLByte (s : String) : Bool :=
  s.toList.any (fun c => c.toNat < 0x20 || c.toNat == 0x7f)

/-- Model of `url.Parse` on the strings `NewRequest` feeds it: outputs of
    `path.Join`.  Such a string has no scheme, authority, query or fragment
    (the theorems below only instantiate it at strings made of plain path
    characters), so the parse yields a path-only relative URL and fails
    exactly on control characters. -/
def parseRelPath (s : String) : Except GoError RelURL :=
  if containsCTLByte s then .error (.urlParseError s)
  else .ok ⟨s⟩

/-- `strings.Cut(s, "/")`: the part before the first `'/'`, the part after
    it, and whether a `'/'` was found. -/
def cutSlash : List Char → List Char × List Char × Bool
  | [] => ([], [], false)
  | c :: rest =>
    if c = '/' then ([], rest, true)
    else
      let r := cutSlash rest
      (c :: r.1, r.2.1, r.2.2)

/-- `strings.LastIndexByte(s, '/')` (as an `Option` instead of `-1`). -/
def lastIndexSlash : List Char → Option Nat
  | [] => none
  | c :: rest =>
    match lastIndexSlash rest with
    | some i => some (i + 1)
    | none => if c = '/' then some 0 else none

/-- The body of `resolvePath`'s per-element loop (net/url/url.go): given
    the element cut from the remaining input, the builder `dst` (which
    always starts with the `'/'` written before the loop) and the `first`
    flag, produce the updated builder and flag. -/
def processElem (elem : List Char) (dst : List Char) (first : Bool) :
    List Char × Bool :=
  if elem = ['.'] then (dst, false)
  else if elem = ['.', '.'] then
    let str := dst.tail
    match lastIndexSlash str with
    | none => (['/'], true)
    | some i => ('/' :: str.take i, first)
  else
    ((if first then dst else dst ++ ['/']) ++ elem, false)

/-- The `for found { elem, remaining, found = strings.Cut(remaining, "/") … }`
    loop of `resolvePath`, returning the final builder and the last element
    cut.  Every iteration with `found = true` consumes the element plus the
    separator, so `fuel = remaining.length + 1` always suffices. -/
def resolveLoop : Nat → List Char → List Char → Bool → List Char × List Char
  | 0, _, dst, _ => (dst, [])
  | fuel + 1, remaining, dst, first =>
    let (elem, rest, found) := cutSlash remaining
    let (dst1, first1) := processElem elem dst first
    if found then resolveLoop fuel rest dst1 first1 else (dst1, elem)

/-- Go `resolvePath` (net/url/url.go): RFC 3986 merge and dot-segment
    removal. -/
def resolvePath (base ref : String) : String :=
  let b := base.toList
  let r := ref.toList
  let full : List Char :=
    if r = [] then b
    else if r.head? ≠ some '/' then
      (match lastIndexSlash b with
       | none => []
       | some i => b.take (i + 1)) ++ r
    else r
  if full = [] then ""
  else
    let (dst0, lastElem) := resolveLoop (full.length + 1) full ['/'] true
    let dst := if lastElem = ['.'] ∨ lastElem = ['.', '.'] then dst0 ++ ['/'] else dst0
    if 1 < dst.length ∧ dst.get? 1 = some '/' then ⟨dst.tail⟩ else ⟨dst⟩

/-- `(*url.URL).ResolveReference` for the references `NewRequest` builds:
    they have empty scheme, host, userinfo, query and opaque part, so the
    Go implementation takes the final `abs_path`/`rel_path` branch and the
    result keeps the base's scheme and host with
    `resolvePath(base.Path, ref.Path)` as path. -/
def ResolveReference (u : URL) (ref : RelURL) : URL :=
  { scheme := u.scheme, host := u.host, path := resolvePath u.path ref.path }

/-- `(*url.URL).String()` for the URLs this package builds:
    `scheme://host` followed by the path. -/
def URL.str (u : URL) : String :=
  (if u.scheme ≠ "" then u.scheme ++ ":" else "") ++
    (if u.host ≠ "" then "//" ++ u.host else "") ++ u.path

/-- `strings.Index s "://"`-style split used to model `url.Parse` on the
    base-URL string handed to `NewRestClient`: the text before a `"://"`
    and the text after it. -/
def splitAuthority : List Char → Option (List Char × List Char)
  | [] => none
  | ':' :: '/' :: '/' :: rest => some ([], rest)
  | c :: rest => (splitAuthority rest).map (fun p => (c :: p.1, p.2))

/-- Model of `url.Parse` on a base-URL string: rejects control characters
    (as `net/url` does), otherwise splits `scheme://host/path`; a string
    without `"://"` parses as a path-only relative URL.  Userinfo, query,
    fragment, escapes and port validation are outside the model (no claim
    inspects them). -/
def Parse (s : String) : Except GoError URL :=
  if containsCTLByte s then .error (.urlParseError s)
  else
    match splitAuthority s.toList with
    | some (sch, rest) =>
      .ok ⟨⟨sch⟩, ⟨rest.takeWhile (· ≠ '/')⟩, ⟨rest.dropWhile (· ≠ '/')⟩⟩
    | none => .ok ⟨"", "", s⟩

end neturl

namespace nethttp

/-- `net/http` token characters (httpguts.IsTokenRune): alphanumerics and
    `! # $ % & ' * + - . ^ _ \x60 | ~` (39 and 96 are the apostrophe and the
    backquote). -/
def isTokenChar (c : Char) : Bool :=
  c.isAlphanum || c = '!' || c = '#' || c = '$' || c = '%' || c = '&' ||
    c.toNat == 39 || c = '*' || c = '+' || c = '-' || c = '.' || c = '^' ||
    c = '_' || c.toNat == 96 || c = '|' || c = '~'

/-- `net/http`'s `validMethod`: nonempty and made of token characters. -/
def validMethod (m : String) : Bool :=
  !m.isEmpty && m.toList.all isTokenChar

/-- An `http.Header` restricted to what the package does with it:
    `Set` with already-canonical keys (`Content-Type`, `Accept`) and
    lookups.  Represented as an association list. -/
def headerSet (h : List (String × String)) (key value : String) :
    List (String × String) :=
  (key, value) :: h.filter (fun p => p.1 ≠ key)

/-- Lookup of a header value by key. -/
def headerGet (h : List (String × String)) (key : String) : Option String :=
  (h.find? (fun p => p.1 == key)).map (·.2)

/-- An `*http.Request` as this package builds and consumes it.  `body` is
    the encoded payload handed to `http.NewRequestWithContext` (`none` for
    a nil body). -/
structure Request where
  method : String
  url : neturl.URL
  body : Option String
  header : List (String × String)
  deriving DecidableEq

/-- The `res.Body` stream of an `*http.Response`: its content, whether
    reading it fails (the error `ioutil.ReadAll` or a JSON decoder would
    hit), and whether it has been closed. -/
structure Body where
  content : String
  readErr : Option GoError := none
  closed : Bool := false
  deriving DecidableEq

/-- An `*http.Response` as this package consumes it. -/
structure Response where
  statusCode : Nat
  body : Body
  deriving DecidableEq

/-- `http.NewRequestWithContext` restricted to what `NewRequest`
    exercises: the empty method defaults to GET, an invalid method is
    rejected, and the request records method, target URL and body.  The
    context only carries cancellation for the later network send and is
    dropped from the model; the URL is passed structurally (Go re-parses
    `u.String()`, a round trip on the URLs this package builds). -/
def NewRequestWithContext (method : String) (u : neturl.URL)
    (body : Option String) : Except GoError Request :=
  let method := if method = "" then "GET" else method
  if validMethod method then
    .ok { method := method, url := u, body := body, header := [] }
  else
    .error (.invalidMethod method)

end nethttp

open neturl nethttp

/-- `PrepareRequestFunction` (restclient.go:23): may rewrite the request or
    fail.  The Go function mutates `*http.Request`; the model returns the
    mutated request. -/
def PrepareRequestFunction := Request → Except GoError Request

/-- `ErrorHandlingFunction` (restclient.go:25). -/
def ErrorHandlingFunction :=
  Option GoError → Request → Response → Option Response × Option GoError

/-- An `*http.Client` through the only capability the package uses:
    `Do`, returning the `(*http.Response, error)` pair. -/
def HTTPClient := Request → Option Response × Option GoError

/-- The `restClient` struct (restclient.go:27).  Pointer fields that may be
    nil are `Option`s. -/
structure restClient where
  baseURL : URL
  prepareFunc : Option PrepareRequestFunction := none
  handleErrorFunc : Option ErrorHandlingFunction := none
  httpClient : Option HTTPClient := none

/-- The `Option` configuration closures (restclient.go:36): they may
    rewrite the client under construction or fail. -/
def ClientOption := restClient → Except GoError restClient

/-- `WithPrepareRequestFunc` (restclient.go:38). -/
def WithPrepareRequestFunc (f : PrepareRequestFunction) : ClientOption :=
  fun c => .ok { c with prepareFunc := some f }

/-- `WithErrorHandlingFunc` (restclient.go:45). -/
def WithErrorHandlingFunc (f : ErrorHandlingFunction) : ClientOption :=
  fun c => .ok { c with handleErrorFunc := some f }

/-- `WithHTTPClient` (restclient.go:52). -/
def WithHTTPClient (h : HTTPClient) : ClientOption :=
  fun c => .ok { c with httpClient := some h }

/-- `defaultErrorHandler` (restclient.go:61): substitute the sentinel for a
    nil error, close the body (the deferred `res.Body.Close()`), read it,
    and wrap the error with a message carrying the status code and — when
    the read succeeds — the body text. -/
def defaultErrorHandler : ErrorHandlingFunction := fun err _req res =>
  let err1 := match err with | none => ErrBadStatusCode | some e => e
  let closed : Response := { res with body := { res.body with closed := true } }
  match res.body.readErr with
  | some _ =>
    (some closed, some (.wrap ("response code: " ++ toString res.statusCode) err1))
  | none =>
    (some closed,
      some (.wrap ("response code: " ++ toString res.statusCode ++ ", body:\n"
        ++ res.body.content) err1))

/-- `http.DefaultClient` performs real network I/O, which is outside this
    model; the embedded code only relies on it being a non-nil client.
    Modelled as a transport that reports a transport-level failure. -/
def defaultHTTPClient : HTTPClient :=
  fun _ => (none, some (.errorString "dial tcp: network unreachable"))

/-- The option-application loop of `NewRestClient` (restclient.go:81). -/
def applyOptions : List ClientOption → restClient → Except GoError restClient
  | [], c => .ok c
  | opt :: rest, c =>
    match opt c with
    | .error e => .error e
    | .ok c1 => applyOptions rest c1

/-- `NewRestClient` (restclient.go:75): parse the base URL (wrapping a
    parse failure as `"invalid url: %w"`), apply the options in order, then
    substitute the default transport and default error handler for nil
    fields. -/
def NewRestClient (baseURL : String) (opts : List ClientOption) :
    Except GoError restClient :=
  match neturl.Parse baseURL with
  | .error e => .error (.wrap "invalid url" e)
  | .ok u =>
    match applyOptions opts { baseURL := u } with
    | .error e => .error e
    | .ok c0 =>
      let c1 := if c0.httpClient.isNone
        then { c0 with httpClient := some defaultHTTPClient } else c0
      let c2 := if c1.handleErrorFunc.isNone
        then { c1 with handleErrorFunc := some defaultErrorHandler } else c1
      .ok c2

/-- A request body value, represented by the outcome of
    `json.NewEncoder(buf).Encode(body)` on it: either the encoded bytes or
    the encoder's error.  (The encoder itself is a collaborator outside the
    package.) -/
structure BodyVal where
  encode : Except GoError String

/-- `(c restClient).NewRequest` (restclient.go:96): join the base path with
    the relative path, parse the join (wrapping a failure as
    `"error parsing path: %w"`), resolve it against the base URL, encode a
    non-nil body (failing with the encoder's error), build the request,
    set `Content-Type` iff a body was supplied, always set `Accept`, and
    give a configured prepare hook the last word. -/
def NewRequest (c : restClient) (method relPath : String)
    (body : Option BodyVal) : Except GoError Request :=
  match neturl.parseRelPath (gopath.Join c.baseURL.path relPath) with
  | .error e => .error (.wrap "error parsing path" e)
  | .ok rel =>
    let u := ResolveReference c.baseURL rel
    let bufRes : Except GoError (Option String) :=
      match body with
      | none => .ok none
      | some b =>
        match b.encode with
        | .error e => .error e
        | .ok data => .ok (some data)
    match bufRes with
    | .error e => .error e
    | .ok buf =>
      match NewRequestWithContext method u buf with
      | .error e => .error e
      | .ok req0 =>
        let req1 :=
          if body.isSome then
            { req0 with header := headerSet req0.header "Content-Type" "application/json" }
          else req0
        let req2 := { req1 with header := headerSet req1.header "Accept" "application/json" }
        match c.prepareFunc with
        | none => .ok req2
        | some f => f req2

/-- The observable outcome of `DoRequest`: the returned response/error pair
    plus an instrumentation bit recording whether the
    `json.NewDecoder(res.Body).Decode(respDest)` line ran. -/
structure DoResult where
  res : Option Response
  err : Option GoError
  decodeAttempted : Bool

/-- `(c restClient).DoRequest` (restclient.go:126).  `respDest` is the
    caller's destination, represented by the outcome of decoding a body
    into it (`none` models a nil destination).  A nil `httpClient` would
    make the Go code dereference a nil pointer and is modelled as a junk
    result; `NewRestClient` never produces such a client.  Likewise a nil
    response paired with a nil error is ruled out by the `http.Client`
    contract. -/
def DoRequest (c : restClient) (req : Request)
    (respDest : Option (Body → Option GoError)) : DoResult :=
  match c.httpClient with
  | none => ⟨none, none, false⟩
  | some hc =>
    match hc req with
    | (res?, some e) => ⟨res?, some e, false⟩
    | (none, none) => ⟨none, none, false⟩
    | (some res, none) =>
      let hookResult : Option (Option Response × Option GoError) :=
        if 400 ≤ res.statusCode then
          match c.handleErrorFunc with
          | some h => some (h none req res)
          | none => none
        else none
      match hookResult with
      | some (r, e) => ⟨r, e, false⟩
      | none =>
        match respDest with
        | none => ⟨some res, none, false⟩
        | some decode =>
          match decode res.body with
          | some e => ⟨some res, some (.wrap "error unmarshalling response" e), true⟩
          | none => ⟨some res, none, true⟩

/-- `(c restClient).GetBaseURL` (restclient.go:145). -/
def GetBaseURL (c : restClient) : URL := c.baseURL

namespace pathspec

/-
Spec-side formalisation of "joined using path-segment rules": a path is its
list of nonempty `'/'`-separated segments; joining appends the two segment
lists and writes them back rooted, separated by single slashes.  These
definitions follow the specification's words, to be compared with the
embedded `path.Join`/`ResolveReference` pipeline.
-/

/-- Close the segment currently being accumulated (characters in reverse). -/
def flush (cur : List Char) : List (List Char) :=
  if cur = [] then [] else [cur.reverse]

/-- Split into nonempty `'/'`-separated segments; `cur` is the segment
    being accumulated, in reverse. -/
def segsAcc : List Char → List Char → List (List Char)
  | [], cur => flush cur
  | c :: rest, cur =>
    if c = '/' then flush cur ++ segsAcc rest []
    else segsAcc rest (c :: cur)

/-- The nonempty `'/'`-separated segments of a path. -/
def segs (l : List Char) : List (List Char) := segsAcc l []

/-- Join segments with single slashes. -/
def joinSegs : List (List Char) → List Char
  | [] => []
  | [s] => s
  | s :: rest => s ++ '/' :: joinSegs rest

/-- A rooted path with the given segments: `/s₁/s₂/…/sₙ` (just `/` when
    there are none). -/
def rootedPath (ss : List (List Char)) : List Char := '/' :: joinSegs ss

/-- Spec-side path join: the base path's segments followed by the relative
    path's segments, rooted, no empty segments, single slashes. -/
def specJoin (basePath relPath : String) : String :=
  ⟨rootedPath (segs basePath.toList ++ segs relPath.toList)⟩

end pathspec

namespace neturl

/-- The builder state of `resolveLoop` after writing the segments `A`:
    `resolvePath` writes a `'/'` before its loop, the first (empty) element
    of a rooted path clears `first`, and each segment is then appended with
    a `'/'` separator — hence the doubled leading slash the final fixup
    removes.  (Proof-support definition for the lemmas below.) -/
def dstOf (A : List (List Char)) : List Char :=
  if A = [] then ['/'] else '/' :: '/' :: pathspec.joinSegs A

end neturl



/-
Concrete instances used by the scenario theorems and the witnesses below.
-/

/-- The client of the C1 scenario: base URL `https://api.example.com/v1/`. -/
def c1client : restClient := { baseURL := ⟨"https", "api.example.com", "/v1/"⟩ }

/-- The request the C1 scenario produces. -/
def c1req : Request :=
  { method := "GET", url := ⟨"https", "api.example.com", "/v1/widgets"⟩,
    body := none, header := [("Accept", "application/json")] }

/-- A custom error hook for the C2 scenario. -/
def c2hook : ErrorHandlingFunction :=
  fun _ _ res => (some res, some (.errorString "handled"))

/-- The 404 response of the C2 scenario. -/
def c2res : Response := { statusCode := 404, body := { content := "not found" } }

/-- A transport delivering `c2res` with no transport error. -/
def c2transport : HTTPClient := fun _ => (some c2res, none)

def c2client : restClient :=
  { baseURL := ⟨"https", "api.example.com", ""⟩,
    handleErrorFunc := some c2hook, httpClient := some c2transport }

def c2req : Request :=
  { method := "GET", url := ⟨"https", "api.example.com", "/"⟩,
    body := none, header := [] }

def c3req : Request :=
  { method := "GET", url := ⟨"https", "api.example.com", "/"⟩,
    body := none, header := [] }

/-- The C3 scenario response: status 404, body `not found`, readable. -/
def c3res : Response := { statusCode := 404, body := { content := "not found" } }

/-- A configuration option that rejects itself (for C4). -/
def c4badOpt : ClientOption := fun _ => .error (.errorString "option rejected")

/-- A transport that fails at the transport level (for C5). -/
def c5transport : HTTPClient :=
  fun _ => (none, some (.errorString "dial tcp: connection refused"))

def c5client : restClient :=
  { baseURL := ⟨"https", "h", ""⟩,
    handleErrorFunc := some defaultErrorHandler, httpClient := some c5transport }

def c5req : Request :=
  { method := "GET", url := ⟨"https", "h", "/"⟩, body := none, header := [] }

/-- A 200 response whose body does not decode (for C6). -/
def c6res : Response := { statusCode := 200, body := { content := "not json" } }

def c6transport : HTTPClient := fun _ => (some c6res, none)

def c6client : restClient :=
  { baseURL := ⟨"https", "h", ""⟩,
    handleErrorFunc := some defaultErrorHandler, httpClient := some c6transport }

def c6req : Request :=
  { method := "GET", url := ⟨"https", "h", "/"⟩, body := none, header := [] }

/-- A destination whose JSON decode fails on the body `not json` (for C6). -/
def c6decoder : Body → Option GoError :=
  fun b => if b.content = "not json"
    then some (.errorString "invalid character 'o' in literal null")
    else none

def c7client : restClient := { baseURL := ⟨"https", "h", "/api"⟩ }

/-- A body value whose JSON encoding fails (for C7). -/
def c7badBody : BodyVal := ⟨.error (.errorString "json: unsupported type: chan int")⟩

/-- A body value that encodes fine (for C7). -/
def c7goodBody : BodyVal := ⟨.ok "42\n"⟩

def c8req : Request :=
  { method := "GET", url := ⟨"https", "h", "/"⟩, body := none, header := [] }

/-- A response whose body read fails (for C8). -/
def c8res : Response :=
  { statusCode := 500,
    body := { content := "", readErr := some (.errorString "unexpected EOF") } }

/-- The client of the C9 scenario: base path `/v1`, no trailing slash. -/
def c9client : restClient := { baseURL := ⟨"https", "api.example.com", "/v1"⟩ }

/-- The client `NewRestClient "https://api.example.com/v1/" []` builds. -/
def c10client : restClient :=
  { baseURL := ⟨"https", "api.example.com", "/v1/"⟩,
    handleErrorFunc := some defaultErrorHandler,
    httpClient := some defaultHTTPClient }

namespace pathspec

theorem segs_cons_slash (rest : List Char) : segs ('/' :: rest) = segs rest := by
  simp [segs, segsAcc, flush]

theorem segsAcc_ne (rest : List Char) (cur : List Char) (h : cur ≠ []) :
    segsAcc rest cur =
      (cur.reverse ++ rest.takeWhile (· ≠ '/')) :: segs (rest.dropWhile (· ≠ '/')) := by
  induction rest generalizing cur with
  | nil => simp [segsAcc, flush, h, segs, segsAcc]
  | cons c rest ih =>
    by_cases hc : c = '/'
    · subst hc
      simp [segsAcc, flush, h, List.takeWhile_cons, List.dropWhile_cons,
        segs_cons_slash, segs]
    · simp only [segsAcc, if_neg hc]
      rw [ih (c :: cur) (by simp)]
      simp [List.takeWhile_cons, List.dropWhile_cons, hc, List.append_assoc]

theorem segs_cons_ne (c : Char) (rest : List Char) (hc : c ≠ '/') :
    segs (c :: rest) =
      (c :: rest.takeWhile (· ≠ '/')) :: segs (rest.dropWhile (· ≠ '/')) := by
  simp only [segs, segsAcc, if_neg hc]
  rw [segsAcc_ne rest [c] (by simp)]
  simp [segs]

theorem segsAcc_append (a b cur : List Char) :
    segsAcc (a ++ '/' :: b) cur = segsAcc a cur ++ segs b := by
  induction a generalizing cur with
  | nil => simp [segsAcc, segs]
  | cons c a ih =>
    by_cases hc : c = '/'
    · subst hc; simp [segsAcc, ih, List.append_assoc]
    · simp [segsAcc, hc, ih]

theorem segs_append (a b : List Char) :
    segs (a ++ '/' :: b) = segs a ++ segs b := segsAcc_append a b []

theorem mem_segsAcc_good (l : List Char) :
    ∀ cur, '/' ∉ cur → ∀ s ∈ segsAcc l cur, s ≠ [] ∧ '/' ∉ s := by
  induction l with
  | nil =>
    intro cur hcur s hs
    simp only [segsAcc, flush] at hs
    split at hs
    · simp at hs
    · simp only [List.mem_singleton] at hs
      subst hs
      rename_i hne
      exact ⟨by simpa using hne, by simpa using hcur⟩
  | cons c rest ih =>
    intro cur hcur s hs
    by_cases hc : c = '/'
    · subst hc
      rw [show segsAcc ('/' :: rest) cur = flush cur ++ segsAcc rest [] by
        simp [segsAcc]] at hs
      rw [List.mem_append] at hs
      rcases hs with hs | hs
      · simp only [flush] at hs
        split at hs
        · simp at hs
        · simp only [List.mem_singleton] at hs
          subst hs
          rename_i hne
          exact ⟨by simpa using hne, by simpa using hcur⟩
      · exact ih [] (by simp) s hs
    · simp only [segsAcc, if_neg hc] at hs
      exact ih (c :: cur) (by simp [hcur, Ne.symm hc]) s hs

theorem mem_segs_good (l : List Char) : ∀ s ∈ segs l, s ≠ [] ∧ '/' ∉ s :=
  mem_segsAcc_good l [] (by simp)

theorem joinSegs_ne_nil (A : List (List Char)) (hA : A ≠ [])
    (h : ∀ s ∈ A, s ≠ []) : joinSegs A ≠ [] := by
  cases A with
  | nil => exact absurd rfl hA
  | cons s rest =>
    cases rest with
    | nil => simpa [joinSegs] using h s (by simp)
    | cons t rest2 => simp [joinSegs]

theorem joinSegs_append (A B : List (List Char)) (hA : A ≠ []) (hB : B ≠ []) :
    joinSegs (A ++ B) = joinSegs A ++ '/' :: joinSegs B := by
  induction A with
  | nil => exact absurd rfl hA
  | cons s rest ih =>
    cases rest with
    | nil =>
      cases B with
      | nil => exact absurd rfl hB
      | cons t rest2 => simp [joinSegs]
    | cons t rest2 =>
      have h2 := ih (by simp)
      simp only [List.cons_append] at h2 ⊢
      simp only [joinSegs, h2]
      cases h3 : rest2 ++ B <;> simp [joinSegs, h3, List.append_assoc]

end pathspec

namespace gopath

open pathspec

theorem cleanLoop_inv :
    ∀ (fuel : Nat) (l : List Char) (A : List (List Char)),
      l.length ≤ fuel →
      (∀ s ∈ A, s ≠ []) →
      (∀ s ∈ segs l, s ≠ ['.'] ∧ s ≠ ['.', '.']) →
      cleanLoop true fuel l (rootedPath A).reverse 1 =
        (rootedPath (A ++ segs l)).reverse := by
  intro fuel
  induction fuel with
  | zero =>
    intro l A hlen hA hnd
    have hl : l = [] := List.length_eq_zero.mp (Nat.le_zero.mp hlen)
    subst hl
    simp [cleanLoop, segs, segsAcc, flush]
  | succ fuel ih =>
    intro l A hlen hA hnd
    cases l with
    | nil => simp [cleanLoop, segs, segsAcc, flush]
    | cons c rest =>
      have hlen1 : rest.length ≤ fuel := Nat.le_of_succ_le_succ (by simpa using hlen)
      by_cases hc : c = '/'
      · subst hc
        rw [show cleanLoop true (fuel + 1) ('/' :: rest) (rootedPath A).reverse 1 =
              cleanLoop true fuel rest (rootedPath A).reverse 1 by simp [cleanLoop]]
        rw [segs_cons_slash] at hnd ⊢
        exact ih rest A hlen1 hA hnd
      · have hseg := segs_cons_ne c rest hc
        have hmem : (c :: rest.takeWhile (· ≠ '/')) ∈ segs (c :: rest) := by
          rw [hseg]; exact List.mem_cons_self _ _
        have hnd0 := hnd _ hmem
        -- the `.` element case is impossible
        have hdot1 : ¬(c = '.' ∧ (rest = [] ∨ rest.head? = some '/')) := by
          rintro ⟨rfl, h2⟩
          have htw : rest.takeWhile (· ≠ '/') = [] := by
            rcases h2 with rfl | hh
            · simp
            · cases rest with
              | nil => simp
              | cons d t =>
                simp only [List.head?_cons, Option.some_inj] at hh
                subst hh
                simp [List.takeWhile_cons]
          rw [htw] at hnd0
          exact hnd0.1 rfl
        -- the `..` element case is impossible
        have hdot2 : ¬(c = '.' ∧ rest.head? = some '.' ∧
            (rest.tail = [] ∨ rest.tail.head? = some '/')) := by
          rintro ⟨rfl, h2, h3⟩
          cases rest with
          | nil => simp at h2
          | cons d t =>
            simp only [List.head?_cons, Option.some_inj] at h2
            subst h2
            simp only [List.tail_cons] at h3
            have htw : t.takeWhile (· ≠ '/') = [] := by
              rcases h3 with rfl | hh
              · simp
              · cases t with
                | nil => simp
                | cons d2 t2 =>
                  simp only [List.head?_cons, Option.some_inj] at hh
                  subst hh
                  simp [List.takeWhile_cons]
            simp [List.takeWhile_cons, htw] at hnd0
            rcases h3 with rfl | hh
            · obtain ⟨x, -⟩ := hnd0
              simp at x
            · obtain ⟨x, hx⟩ := hnd0
              cases t with
              | nil => simp at x
              | cons d t2 =>
                simp only [List.head?_cons, Option.some_inj] at hh
                subst hh
                simp at hx
        -- unfold one step of cleanLoop into the default branch
        rw [show cleanLoop true (fuel + 1) (c :: rest) (rootedPath A).reverse 1 =
              cleanLoop true fuel (rest.dropWhile (· ≠ '/'))
                ((rest.takeWhile (· ≠ '/')).reverse ++ c ::
                  (if (true = true ∧ ((rootedPath A).reverse).length ≠ 1) ∨
                      (true = false ∧ ((rootedPath A).reverse).length ≠ 0)
                   then '/' :: (rootedPath A).reverse else (rootedPath A).reverse)) 1 by
            simp only [cleanLoop]
            rw [if_neg hc, if_neg hdot1, if_neg hdot2]]
        set tw := rest.takeWhile (· ≠ '/') with htw
        set dw := rest.dropWhile (· ≠ '/') with hdw
        have hApp : (tw.reverse ++ c ::
            (if (true = true ∧ ((rootedPath A).reverse).length ≠ 1) ∨
                (true = false ∧ ((rootedPath A).reverse).length ≠ 0)
             then '/' :: (rootedPath A).reverse else (rootedPath A).reverse)) =
            (rootedPath (A ++ [c :: tw])).reverse := by
          by_cases hA0 : A = []
          · subst hA0
            rw [if_neg (by simp [rootedPath, joinSegs])]
            simp [rootedPath, joinSegs]
          · rw [if_pos (by
              refine Or.inl ⟨rfl, ?_⟩
              have h0 : joinSegs A ≠ [] := joinSegs_ne_nil A hA0 hA
              have h1 : 0 < (joinSegs A).length := List.length_pos.mpr h0
              simp only [rootedPath, List.length_reverse, List.length_cons]
              omega)]
            rw [rootedPath, rootedPath,
              joinSegs_append A [c :: tw] hA0 (by simp)]
            simp [joinSegs, List.reverse_append, List.append_assoc]
        rw [hApp]
        have hnd2 : ∀ s ∈ segs dw, s ≠ ['.'] ∧ s ≠ ['.', '.'] := by
          intro s hs
          exact hnd s (by rw [hseg]; exact List.mem_cons_of_mem _ hs)
        have hA2 : ∀ s ∈ A ++ [c :: tw], s ≠ [] := by
          intro s hs
          rcases List.mem_append.mp hs with hs | hs
          · exact hA s hs
          · simp only [List.mem_singleton] at hs; subst hs; simp
        have hlen2 : dw.length ≤ fuel :=
          le_trans (by rw [hdw]; exact (List.dropWhile_sublist _).length_le) hlen1
        rw [ih dw (A ++ [c :: tw]) hlen2 hA2 hnd2]
        rw [hseg]
        simp [List.append_assoc]

theorem Clean_rooted (t : List Char)
    (hnd : ∀ s ∈ segs t, s ≠ ['.'] ∧ s ≠ ['.', '.']) :
    Clean ⟨'/' :: t⟩ = ⟨rootedPath (segs t)⟩ := by
  have hne : (⟨'/' :: t⟩ : String) ≠ "" := by
    simp [String.ext_iff]
  have hstep : Clean ⟨'/' :: t⟩ =
      (if (cleanLoop true (t.length + 1) t ['/'] 1).length = 0 then "."
       else ⟨(cleanLoop true (t.length + 1) t ['/'] 1).reverse⟩) := by
    rw [Clean, if_neg hne]
    rfl
  rw [hstep]
  rw [show (['/'] : List Char) = (rootedPath []).reverse from rfl]
  rw [cleanLoop_inv (t.length + 1) t [] (Nat.le_succ _) (by simp) hnd]
  rw [if_neg (by simp [rootedPath])]
  simp [rootedPath]

end gopath

namespace neturl

open pathspec

theorem cutSlash_append (s t : List Char) (h : '/' ∉ s) :
    cutSlash (s ++ '/' :: t) = (s, t, true) := by
  induction s with
  | nil => simp [cutSlash]
  | cons c s ih =>
    simp only [List.mem_cons, not_or] at h
    have hc : ¬c = '/' := fun hh => h.1 hh.symm
    simp [cutSlash, hc, ih h.2]

theorem cutSlash_noslash (s : List Char) (h : '/' ∉ s) :
    cutSlash s = (s, [], false) := by
  induction s with
  | nil => rfl
  | cons c s ih =>
    simp only [List.mem_cons, not_or] at h
    have hc : ¬c = '/' := fun hh => h.1 hh.symm
    simp [cutSlash, hc, ih h.2]

theorem processElem_seg (s dst : List Char) (h1 : s ≠ ['.']) (h2 : s ≠ ['.', '.']) :
    processElem s dst false = (dst ++ ['/'] ++ s, false) := by
  simp [processElem, h1, h2, List.append_assoc]

theorem dstOf_push (A : List (List Char)) (s : List Char) :
    dstOf A ++ ['/'] ++ s = dstOf (A ++ [s]) := by
  by_cases hA : A = []
  · subst hA; simp [dstOf, joinSegs]
  · rw [dstOf, if_neg hA, dstOf, if_neg (by simp),
      joinSegs_append A [s] hA (by simp)]
    simp [joinSegs, List.append_assoc]

theorem getLastD_mem (l : List (List Char)) (h : l ≠ []) (d : List Char) :
    l.getLastD d ∈ l := by
  induction l generalizing d with
  | nil => exact absurd rfl h
  | cons a l ih =>
    cases l with
    | nil => simp [List.getLastD]
    | cons b t => exact List.mem_cons_of_mem a (ih (by simp) a)

theorem getLastD_irrel (l : List (List Char)) (d1 d2 : List Char) (h : l ≠ []) :
    l.getLastD d1 = l.getLastD d2 := by
  cases l with
  | nil => exact absurd rfl h
  | cons a t => rfl

theorem resolveLoop_inv :
    ∀ (fuel : Nat) (B A : List (List Char)),
      (joinSegs B).length < fuel →
      B ≠ [] →
      (∀ s ∈ B, s ≠ [] ∧ '/' ∉ s ∧ s ≠ ['.'] ∧ s ≠ ['.', '.']) →
      resolveLoop fuel (joinSegs B) (dstOf A) false =
        (dstOf (A ++ B), B.getLastD []) := by
  intro fuel
  induction fuel with
  | zero => intro B A hlen _ _; exact absurd hlen (Nat.not_lt_zero _)
  | succ fuel ih =>
    intro B A hlen hBne hB
    cases B with
    | nil => exact absurd rfl hBne
    | cons s B1 =>
      have hs := hB s (by simp)
      cases B1 with
      | nil =>
        rw [show joinSegs [s] = s from rfl, resolveLoop,
          cutSlash_noslash s hs.2.1]
        simp only [processElem_seg s (dstOf A) hs.2.2.1 hs.2.2.2]
        rw [if_neg (by simp)]
        rw [dstOf_push]
        rfl
      | cons s2 B2 =>
        rw [show joinSegs (s :: s2 :: B2) = s ++ '/' :: joinSegs (s2 :: B2) from rfl,
          resolveLoop, cutSlash_append s _ hs.2.1]
        simp only [processElem_seg s (dstOf A) hs.2.2.1 hs.2.2.2]
        simp only [if_true]
        rw [dstOf_push]
        have hlen2 : (joinSegs (s2 :: B2)).length < fuel := by
          have : (s ++ '/' :: joinSegs (s2 :: B2)).length < fuel + 1 := hlen
          simp only [List.length_append, List.length_cons] at this
          omega
        rw [ih (s2 :: B2) (A ++ [s]) hlen2 (by simp)
          (fun u hu => hB u (List.mem_cons_of_mem s hu))]
        rw [List.append_assoc]
        simp only [List.singleton_append]
        rw [show (s :: s2 :: B2).getLastD [] = (s2 :: B2).getLastD s from rfl]
        rw [getLastD_irrel (s2 :: B2) s [] (by simp)]

theorem resolvePath_rootedPath (base : String) (ss : List (List Char))
    (hss : ∀ s ∈ ss, s ≠ [] ∧ '/' ∉ s ∧ s ≠ ['.'] ∧ s ≠ ['.', '.']) :
    resolvePath base ⟨rootedPath ss⟩ = ⟨rootedPath ss⟩ := by
  have hstep : resolvePath base ⟨rootedPath ss⟩ =
      (let p := resolveLoop ((rootedPath ss).length + 1) (rootedPath ss) ['/'] true
       let dst := if p.2 = ['.'] ∨ p.2 = ['.', '.'] then p.1 ++ ['/'] else p.1
       if 1 < dst.length ∧ dst.get? 1 = some '/' then ⟨dst.tail⟩ else ⟨dst⟩) := rfl
  rw [hstep]
  have hloop1 : resolveLoop ((rootedPath ss).length + 1) (rootedPath ss) ['/'] true =
      resolveLoop ((joinSegs ss).length + 1) (joinSegs ss) ['/'] false := by
    rfl
  rw [hloop1]
  by_cases hss0 : ss = []
  · subst hss0; rfl
  · rw [show (['/'] : List Char) = dstOf [] from rfl]
    rw [resolveLoop_inv ((joinSegs ss).length + 1) ss [] (Nat.lt_succ_self _)
      hss0 hss]
    dsimp only
    rw [List.nil_append]
    have hlast := hss (ss.getLastD []) (getLastD_mem ss hss0 [])
    rw [if_neg (not_or.mpr ⟨hlast.2.2.1, hlast.2.2.2⟩)]
    rw [dstOf, if_neg hss0]
    rw [if_pos ⟨by simp, rfl⟩]
    rfl

end neturl

theorem strToList_append (a b : String) : (a ++ b).toList = a.toList ++ b.toList := by
  cases a; cases b; rfl

theorem NewRequestWithContext_ok_parts (method : String) (u : neturl.URL)
    (body : Option String) (req : Request)
    (h : NewRequestWithContext method u body = .ok req) :
    req.url = u ∧ req.body = body ∧ req.header = [] := by
  unfold NewRequestWithContext at h
  dsimp only at h
  split at h
  all_goals try split at h
  all_goals first
    | (simp only [Except.ok.injEq] at h; subst h; exact ⟨rfl, rfl, rfl⟩)
    | simp at h

theorem NewRequest_ok_url (c : restClient) (method relPath : String)
    (body : Option BodyVal) (req : Request) (rel : neturl.RelURL)
    (hprep : c.prepareFunc = none)
    (hparse : neturl.parseRelPath (gopath.Join c.baseURL.path relPath) = .ok rel)
    (hok : NewRequest c method relPath body = .ok req) :
    req.url = ResolveReference c.baseURL rel := by
  rw [NewRequest.eq_def, hparse] at hok
  simp only [hprep] at hok
  cases body with
  | none =>
    dsimp only at hok
    split at hok
    · simp at hok
    · rename_i req0 heq
      obtain ⟨hu, -, -⟩ := NewRequestWithContext_ok_parts _ _ _ _ heq
      simp only [Except.ok.injEq] at hok
      rw [← hok]
      simpa using hu
  | some b =>
    cases hb : b.encode with
    | error e =>
      dsimp only at hok
      rw [hb] at hok
      simp at hok
    | ok data =>
      dsimp only at hok
      rw [hb] at hok
      dsimp only at hok
      split at hok
      · simp at hok
      · rename_i req0 heq
        obtain ⟨hu, -, -⟩ := NewRequestWithContext_ok_parts _ _ _ _ heq
        simp only [Except.ok.injEq] at hok
        rw [← hok]
        simpa using hu

/-- C1: for a valid base URL (rooted, dot-free, control-free path) and a
    plain dot-free relative path, the request `NewRequest` builds keeps the
    base URL's scheme and host and targets the base path joined with the
    relative path by path-segment rules — the spec-side `specJoin`: the
    nonempty segments of both paths concatenated, separated by single
    slashes (no doubled separators), the base path's trailing segments
    preserved as prefix. -/
theorem C1_newRequest_url_is_segment_join (c : restClient) (method relPath : String)
    (body : Option BodyVal) (req : Request)
    (hroot : c.baseURL.path.toList.head? = some '/')
    (hnd1 : ∀ t ∈ pathspec.segs c.baseURL.path.toList, t ≠ ['.'] ∧ t ≠ ['.', '.'])
    (hnd2 : ∀ t ∈ pathspec.segs relPath.toList, t ≠ ['.'] ∧ t ≠ ['.', '.'])
    (hctl : neturl.containsCTLByte (gopath.Join c.baseURL.path relPath) = false)
    (hprep : c.prepareFunc = none)
    (hok : NewRequest c method relPath body = .ok req) :
    req.url.scheme = c.baseURL.scheme ∧ req.url.host = c.baseURL.host ∧
      req.url.path = pathspec.specJoin c.baseURL.path relPath := by
  obtain ⟨bt, hbt⟩ : ∃ bt, c.baseURL.path.toList = '/' :: bt := by
    cases h : c.baseURL.path.toList with
    | nil => rw [h] at hroot; exact absurd hroot (by simp)
    | cons a t =>
      rw [h] at hroot
      simp only [List.head?_cons, Option.some_inj] at hroot
      exact ⟨t, by rw [hroot]⟩
  have hpstr : c.baseURL.path = ⟨'/' :: bt⟩ := by
    have h0 : c.baseURL.path = ⟨c.baseURL.path.toList⟩ := rfl
    rw [h0, hbt]
  have hbpne : c.baseURL.path ≠ "" := by
    rw [hpstr]
    simp [String.ext_iff]
  have hdata : (c.baseURL.path ++ "/" ++ relPath).toList
      = '/' :: (bt ++ '/' :: relPath.toList) := by
    rw [strToList_append, strToList_append, hbt]
    simp
  have hJoin : gopath.Join c.baseURL.path relPath
      = ⟨pathspec.rootedPath (pathspec.segs c.baseURL.path.toList
          ++ pathspec.segs relPath.toList)⟩ := by
    rw [gopath.Join, if_pos hbpne]
    have h1 : (c.baseURL.path ++ "/" ++ relPath) = ⟨'/' :: (bt ++ '/' :: relPath.toList)⟩ :=
      String.ext_iff.mpr hdata
    rw [h1, gopath.Clean_rooted]
    · rw [pathspec.segs_append, hbt, pathspec.segs_cons_slash]
    · rw [pathspec.segs_append]
      intro s hs
      rcases List.mem_append.mp hs with hs | hs
      · exact hnd1 s (by rw [hbt, pathspec.segs_cons_slash]; exact hs)
      · exact hnd2 s hs
  have hgood : ∀ s ∈ pathspec.segs c.baseURL.path.toList
      ++ pathspec.segs relPath.toList,
      s ≠ [] ∧ '/' ∉ s ∧ s ≠ ['.'] ∧ s ≠ ['.', '.'] := by
    intro s hs
    rcases List.mem_append.mp hs with hs | hs
    · have hg := pathspec.mem_segs_good _ s hs
      have hd := hnd1 s hs
      exact ⟨hg.1, hg.2, hd.1, hd.2⟩
    · have hg := pathspec.mem_segs_good _ s hs
      have hd := hnd2 s hs
      exact ⟨hg.1, hg.2, hd.1, hd.2⟩
  have hparse : neturl.parseRelPath (gopath.Join c.baseURL.path relPath)
      = .ok ⟨gopath.Join c.baseURL.path relPath⟩ := by
    rw [neturl.parseRelPath, if_neg (by simp [hctl])]
  have hurl := NewRequest_ok_url c method relPath body req _ hprep hparse hok
  have hrespath : (ResolveReference c.baseURL
      ⟨gopath.Join c.baseURL.path relPath⟩).path
      = pathspec.specJoin c.baseURL.path relPath := by
    show neturl.resolvePath c.baseURL.path (gopath.Join c.baseURL.path relPath)
      = pathspec.specJoin c.baseURL.path relPath
    rw [hJoin, neturl.resolvePath_rootedPath _ _ hgood]
    rfl
  refine ⟨?_, ?_, ?_⟩
  · rw [hurl]
    rfl
  · rw [hurl]
    rfl
  · rw [hurl]
    exact hrespath


theorem C1_witness :
    NewRequest c1client "GET" "widgets" none = .ok c1req ∧
    c1req.url.scheme = c1client.baseURL.scheme ∧
    c1req.url.host = c1client.baseURL.host ∧
    c1req.url.path = pathspec.specJoin c1client.baseURL.path "widgets" ∧
    c1req.url.path = "/v1/widgets" := by
  have h := C1_newRequest_url_is_segment_join c1client "GET" "widgets" none
    c1req (by decide) (by decide) (by decide) (by decide) rfl rfl
  exact ⟨rfl, h.1, h.2.1, h.2.2, rfl⟩

theorem DoRequest_transport_error (c : restClient) (req : Request) (hc : HTTPClient)
    (res? : Option Response) (e : GoError)
    (respDest : Option (Body → Option GoError))
    (hhc : c.httpClient = some hc) (hdo : hc req = (res?, some e)) :
    DoRequest c req respDest = ⟨res?, some e, false⟩ := by
  rw [DoRequest.eq_def, hhc]
  dsimp only
  rw [hdo]
  cases res? <;> rfl

theorem DoRequest_hook (c : restClient) (req : Request) (res : Response)
    (hc : HTTPClient) (h : ErrorHandlingFunction)
    (respDest : Option (Body → Option GoError))
    (hhc : c.httpClient = some hc) (hdo : hc req = (some res, none))
    (hhook : c.handleErrorFunc = some h) (hstatus : 400 ≤ res.statusCode) :
    DoRequest c req respDest = ⟨(h none req res).1, (h none req res).2, false⟩ := by
  rw [DoRequest.eq_def, hhc]
  dsimp only
  rw [hdo]
  dsimp only
  rw [if_pos hstatus, hhook]

theorem DoRequest_no_dest_no_decode (c : restClient) (req : Request) :
    (DoRequest c req none).decodeAttempted = false := by
  rw [DoRequest.eq_def]
  cases hhc : c.httpClient with
  | none => rfl
  | some hc =>
    dsimp only
    rcases hdo : hc req with ⟨res?, err?⟩
    cases err? with
    | some e => cases res? <;> rfl
    | none =>
      cases res? with
      | none => rfl
      | some res =>
        dsimp only
        split <;> rfl

theorem DoRequest_decode (c : restClient) (req : Request) (res : Response)
    (hc : HTTPClient) (d : Body → Option GoError)
    (hhc : c.httpClient = some hc) (hdo : hc req = (some res, none))
    (hstatus : res.statusCode < 400) :
    DoRequest c req (some d) =
      (match d res.body with
       | some e => ⟨some res, some (.wrap "error unmarshalling response" e), true⟩
       | none => ⟨some res, none, true⟩) := by
  rw [DoRequest.eq_def, hhc]
  dsimp only
  rw [hdo]
  dsimp only
  rw [if_neg (by omega)]

/-- C2: for a response with status ≥ 400 delivered without transport error,
    `DoRequest` returns exactly the configured error hook's result for
    `(nil error, request, response)` and performs no decode attempt, whatever
    the response destination; and with a nil destination no decode is ever
    attempted, for any client, request, status or transport outcome. -/
theorem C2_execute_routes_errors_before_decode (c : restClient) (req : Request)
    (res : Response) (hc : HTTPClient) (h : ErrorHandlingFunction)
    (respDest : Option (Body → Option GoError))
    (hhc : c.httpClient = some hc) (hdo : hc req = (some res, none))
    (hhook : c.handleErrorFunc = some h) (hstatus : 400 ≤ res.statusCode) :
    DoRequest c req respDest =
      ⟨(h none req res).1, (h none req res).2, false⟩ ∧
    (∀ (c1 : restClient) (req1 : Request),
      (DoRequest c1 req1 none).decodeAttempted = false) :=
  ⟨DoRequest_hook c req res hc h respDest hhc hdo hhook hstatus,
   fun c1 req1 => DoRequest_no_dest_no_decode c1 req1⟩

theorem C2_witness :
    DoRequest c2client c2req (some (fun _ => none)) =
      ⟨(c2hook none c2req c2res).1, (c2hook none c2req c2res).2, false⟩ ∧
    (DoRequest c2client c2req none).decodeAttempted = false :=
  ⟨(C2_execute_routes_errors_before_decode c2client c2req c2res c2transport
      c2hook (some (fun _ => none)) rfl rfl rfl (by decide)).1,
   (C2_execute_routes_errors_before_decode c2client c2req c2res c2transport
      c2hook none rfl rfl rfl (by decide)).2 c2client c2req⟩

/-- C5: when the transport returns an error, `DoRequest` returns that error
    value as-is — not wrapped — together with whatever response the
    transport returned. -/
theorem C5_transport_error_returned_as_is (c : restClient) (req : Request)
    (hc : HTTPClient) (res? : Option Response) (e : GoError)
    (respDest : Option (Body → Option GoError))
    (hhc : c.httpClient = some hc) (hdo : hc req = (res?, some e)) :
    DoRequest c req respDest = ⟨res?, some e, false⟩ :=
  DoRequest_transport_error c req hc res? e respDest hhc hdo

theorem C5_witness :
    DoRequest c5client c5req none =
      ⟨none, some (.errorString "dial tcp: connection refused"), false⟩ :=
  C5_transport_error_returned_as_is c5client c5req c5transport none
    (.errorString "dial tcp: connection refused") none rfl rfl

/-- C6: on a successful-status response, a failing JSON decode into a
    non-nil destination yields the decode error wrapping the underlying
    cause, while the raw response is still returned. -/
theorem C6_decode_failure_wraps_cause (c : restClient) (req : Request)
    (res : Response) (hc : HTTPClient) (d : Body → Option GoError)
    (cause : GoError)
    (hhc : c.httpClient = some hc) (hdo : hc req = (some res, none))
    (hstatus : res.statusCode < 400) (hdec : d res.body = some cause) :
    DoRequest c req (some d) =
      ⟨some res, some (.wrap "error unmarshalling response" cause), true⟩ := by
  rw [DoRequest_decode c req res hc d hhc hdo hstatus, hdec]

theorem C6_witness :
    DoRequest c6client c6req (some c6decoder) =
      ⟨some c6res,
       some (.wrap "error unmarshalling response"
         (.errorString "invalid character 'o' in literal null")), true⟩ :=
  C6_decode_failure_wraps_cause c6client c6req c6res c6transport c6decoder
    (.errorString "invalid character 'o' in literal null") rfl rfl
    (by decide) rfl

/-- C3: the default error hook always closes the response body and always
    returns a non-nil error; invoked with a nil error it wraps the sentinel
    `ErrBadStatusCode`; and on the 404 / `not found` scenario the returned
    error's message contains both `404` and `not found`. -/
theorem C3_default_handler_closes_and_errors (err : Option GoError)
    (req : Request) (res : Response) :
    (defaultErrorHandler err req res).1
        = some { res with body := { res.body with closed := true } } ∧
    (∃ e, (defaultErrorHandler err req res).2 = some e) ∧
    (∃ msg, (defaultErrorHandler none req res).2
        = some (.wrap msg ErrBadStatusCode)) ∧
    (∃ e, (defaultErrorHandler none c3req c3res).2 = some e ∧
      strContains e.message "404" ∧ strContains e.message "not found") := by
  refine ⟨?_, ?_, ?_, ?_⟩
  · cases h : res.body.readErr <;> simp [defaultErrorHandler, h]
  · cases h : res.body.readErr with
    | none =>
      exact ⟨.wrap ("response code: " ++ toString res.statusCode ++ ", body:\n"
          ++ res.body.content) (match err with | none => ErrBadStatusCode | some e => e),
        by simp [defaultErrorHandler, h]⟩
    | some e2 =>
      exact ⟨.wrap ("response code: " ++ toString res.statusCode)
          (match err with | none => ErrBadStatusCode | some e => e),
        by simp [defaultErrorHandler, h]⟩
  · cases h : res.body.readErr with
    | none =>
      exact ⟨"response code: " ++ toString res.statusCode ++ ", body:\n"
          ++ res.body.content, by simp [defaultErrorHandler, h]⟩
    | some e2 =>
      exact ⟨"response code: " ++ toString res.statusCode,
        by simp [defaultErrorHandler, h]⟩
  · exact ⟨.wrap ("response code: " ++ toString (404 : Nat) ++ ", body:\n"
        ++ "not found") ErrBadStatusCode, rfl, by decide, by decide⟩

/-- C8: when reading the response body fails, the default error hook
    ignores that secondary failure and returns the wrapped original error
    (the sentinel when the incoming error is nil) with a status-only
    message, the response body still closed. -/
theorem C8_read_failure_falls_back_to_status_only (err : Option GoError)
    (req : Request) (res : Response) (e2 : GoError)
    (hread : res.body.readErr = some e2) :
    defaultErrorHandler err req res =
      (some { res with body := { res.body with closed := true } },
        some (.wrap ("response code: " ++ toString res.statusCode)
          (err.getD ErrBadStatusCode))) := by
  cases err <;> simp [defaultErrorHandler, hread, Option.getD]

theorem C8_witness :
    defaultErrorHandler none c8req c8res =
      (some { c8res with body := { c8res.body with closed := true } },
        some (.wrap "response code: 500" ErrBadStatusCode)) :=
  (C8_read_failure_falls_back_to_status_only none c8req c8res
    (.errorString "unexpected EOF") rfl).trans (by decide)

theorem applyOptions_append (xs ys : List ClientOption) (c : restClient) :
    applyOptions (xs ++ ys) c =
      match applyOptions xs c with
      | .error e => .error e
      | .ok c1 => applyOptions ys c1 := by
  induction xs generalizing c with
  | nil => rfl
  | cons o rest ih =>
    simp only [List.cons_append, applyOptions]
    cases o c with
    | error e => rfl
    | ok c1 => exact ih c1

/-- C4: a base-URL string `url.Parse` rejects makes `NewRestClient` fail
    with the wrapped `invalid url` error, so no client (and hence no
    request) is ever produced; otherwise the options run in order and the
    first failing option aborts construction with exactly its error. -/
theorem C4_construct_invalid_url_and_option_order (s : String)
    (opts opts1 opts2 : List ClientOption) (opt : ClientOption)
    (u : neturl.URL) (c1 : restClient) (e eo : GoError) :
    (neturl.Parse s = .error e →
      NewRestClient s opts = .error (.wrap "invalid url" e)) ∧
    (neturl.Parse s = .ok u →
      applyOptions opts1 { baseURL := u } = .ok c1 →
      opt c1 = .error eo →
      NewRestClient s (opts1 ++ opt :: opts2) = .error eo) := by
  constructor
  · intro hp
    rw [NewRestClient.eq_def, hp]
  · intro hp h1 h2
    rw [NewRestClient.eq_def, hp]
    dsimp only
    rw [applyOptions_append, h1]
    dsimp only
    simp only [applyOptions]
    rw [h2]

theorem C4_witness :
    NewRestClient "\x00" [] = .error (.wrap "invalid url" (.urlParseError "\x00")) ∧
    NewRestClient "https://h" [c4badOpt] = .error (.errorString "option rejected") :=
  ⟨(C4_construct_invalid_url_and_option_order "\x00" [] [] [] c4badOpt
      ⟨"", "", ""⟩ { baseURL := ⟨"", "", ""⟩ } (.urlParseError "\x00")
      (.errorString "option rejected")).1 rfl,
   (C4_construct_invalid_url_and_option_order "https://h" [] [] [] c4badOpt
      ⟨"https", "h", ""⟩ { baseURL := ⟨"https", "h", ""⟩ }
      (.urlParseError "\x00") (.errorString "option rejected")).2 rfl rfl rfl⟩

theorem applyOptions_exported_ok (opts : List ClientOption)
    (hall : ∀ o ∈ opts, (∃ f, o = WithPrepareRequestFunc f) ∨
      (∃ g, o = WithErrorHandlingFunc g) ∨ (∃ h, o = WithHTTPClient h)) :
    ∀ c : restClient, ∃ c1, applyOptions opts c = .ok c1 := by
  induction opts with
  | nil => intro c; exact ⟨c, rfl⟩
  | cons o rest ih =>
    intro c
    have ih1 := ih (fun o1 ho1 => hall o1 (List.mem_cons_of_mem _ ho1))
    rcases hall o (by simp) with ⟨f, rfl⟩ | ⟨g, rfl⟩ | ⟨h, rfl⟩
    · exact ih1 { c with prepareFunc := some f }
    · exact ih1 { c with handleErrorFunc := some g }
    · exact ih1 { c with httpClient := some h }

/-- C10: a successfully constructed client always has a non-nil transport
    and a non-nil error hook (defaults substituted); the three exported
    options never return an error; and construction from only those options
    can fail only because the base URL failed to parse. -/
theorem C10_constructed_clients_have_defaults (s : String)
    (opts : List ClientOption) (c : restClient)
    (f : PrepareRequestFunction) (g : ErrorHandlingFunction) (hcl : HTTPClient)
    (c0 : restClient) :
    (NewRestClient s opts = .ok c →
      c.httpClient.isSome = true ∧ c.handleErrorFunc.isSome = true) ∧
    (WithPrepareRequestFunc f c0 = .ok { c0 with prepareFunc := some f }) ∧
    (WithErrorHandlingFunc g c0 = .ok { c0 with handleErrorFunc := some g }) ∧
    (WithHTTPClient hcl c0 = .ok { c0 with httpClient := some hcl }) ∧
    ((∀ o ∈ opts, (∃ f1, o = WithPrepareRequestFunc f1) ∨
        (∃ g1, o = WithErrorHandlingFunc g1) ∨ (∃ h1, o = WithHTTPClient h1)) →
      ∀ e, NewRestClient s opts = .error e →
        ∃ e0, neturl.Parse s = .error e0 ∧ e = .wrap "invalid url" e0) := by
  refine ⟨?_, rfl, rfl, rfl, ?_⟩
  · intro hok
    rw [NewRestClient.eq_def] at hok
    cases hp : neturl.Parse s with
    | error e0 => rw [hp] at hok; simp at hok
    | ok u =>
      rw [hp] at hok
      dsimp only at hok
      cases ha : applyOptions opts { baseURL := u } with
      | error e1 => rw [ha] at hok; simp at hok
      | ok c0' =>
        rw [ha] at hok
        dsimp only at hok
        simp only [Except.ok.injEq] at hok
        subst hok
        constructor
        · cases hh : c0'.httpClient with
          | none => cases hg : c0'.handleErrorFunc <;> simp [hh, hg]
          | some x => cases hg : c0'.handleErrorFunc <;> simp [hh, hg]
        · cases hh : c0'.httpClient with
          | none => cases hg : c0'.handleErrorFunc <;> simp [hh, hg]
          | some x => cases hg : c0'.handleErrorFunc <;> simp [hh, hg]
  · intro hall e herr
    cases hp : neturl.Parse s with
    | error e0 =>
      rw [NewRestClient.eq_def, hp] at herr
      dsimp only at herr
      simp only [Except.error.injEq] at herr
      exact ⟨e0, rfl, herr.symm⟩
    | ok u =>
      obtain ⟨c1, hc1⟩ := applyOptions_exported_ok opts hall { baseURL := u }
      rw [NewRestClient.eq_def, hp] at herr
      dsimp only at herr
      rw [hc1] at herr
      simp at herr

theorem C10_witness :
    NewRestClient "https://api.example.com/v1/" [] = .ok c10client ∧
    c10client.httpClient.isSome = true ∧
    c10client.handleErrorFunc.isSome = true :=
  ⟨rfl,
   (C10_constructed_clients_have_defaults "https://api.example.com/v1/" []
      c10client (fun r => .ok r) defaultErrorHandler defaultHTTPClient
      c10client).1 rfl⟩

theorem NewRequest_encode_error (c : restClient) (method relPath : String)
    (b : BodyVal) (e : GoError) (rel : neturl.RelURL)
    (hparse : neturl.parseRelPath (gopath.Join c.baseURL.path relPath) = .ok rel)
    (hb : b.encode = .error e) :
    NewRequest c method relPath (some b) = .error e := by
  rw [NewRequest.eq_def, hparse]
  dsimp only
  rw [hb]

theorem NewRequest_ok_header (c : restClient) (method relPath : String)
    (body : Option BodyVal) (req : Request) (rel : neturl.RelURL)
    (hprep : c.prepareFunc = none)
    (hparse : neturl.parseRelPath (gopath.Join c.baseURL.path relPath) = .ok rel)
    (hok : NewRequest c method relPath body = .ok req) :
    req.header = if body.isSome
      then [("Accept", "application/json"), ("Content-Type", "application/json")]
      else [("Accept", "application/json")] := by
  rw [NewRequest.eq_def, hparse] at hok
  simp only [hprep] at hok
  cases body with
  | none =>
    dsimp only at hok
    split at hok
    · simp at hok
    · rename_i req0 heq
      obtain ⟨-, -, hh⟩ := NewRequestWithContext_ok_parts _ _ _ _ heq
      simp only [Except.ok.injEq] at hok
      rw [← hok]
      simp [hh, headerSet]
  | some b =>
    cases hb : b.encode with
    | error e =>
      dsimp only at hok
      rw [hb] at hok
      simp at hok
    | ok data =>
      dsimp only at hok
      rw [hb] at hok
      dsimp only at hok
      split at hok
      · simp at hok
      · rename_i req0 heq
        obtain ⟨-, -, hh⟩ := NewRequestWithContext_ok_parts _ _ _ _ heq
        simp only [Except.ok.injEq] at hok
        rw [← hok]
        simp [hh, headerSet]

/-- C7: every request `NewRequest` returns carries
    `Accept: application/json`, carries `Content-Type: application/json`
    exactly when a non-nil body was supplied, and a body whose JSON
    encoding fails aborts `NewRequest` with precisely the encoder's error,
    so no request is produced. -/
theorem C7_headers_and_encode_failure (c : restClient) (method relPath : String)
    (hprep : c.prepareFunc = none)
    (hctl : neturl.containsCTLByte (gopath.Join c.baseURL.path relPath) = false) :
    (∀ (b : BodyVal) (e : GoError), b.encode = .error e →
      NewRequest c method relPath (some b) = .error e) ∧
    (∀ (body : Option BodyVal) (req : Request),
      NewRequest c method relPath body = .ok req →
      headerGet req.header "Accept" = some "application/json" ∧
      (headerGet req.header "Content-Type" = some "application/json"
        ↔ body.isSome = true)) := by
  have hparse : neturl.parseRelPath (gopath.Join c.baseURL.path relPath)
      = .ok ⟨gopath.Join c.baseURL.path relPath⟩ := by
    rw [neturl.parseRelPath, if_neg (by simp [hctl])]
  constructor
  · intro b e hb
    exact NewRequest_encode_error c method relPath b e _ hparse hb
  · intro body req hok
    have hh := NewRequest_ok_header c method relPath body req _ hprep hparse hok
    cases body with
    | none =>
      simp only [Option.isSome_none, Bool.false_eq_true, if_false] at hh
      rw [hh]
      exact ⟨rfl, by simp [headerGet]⟩
    | some b =>
      simp only [Option.isSome_some, if_true] at hh
      rw [hh]
      exact ⟨rfl, by simp [headerGet]⟩

theorem C7_witness :
    NewRequest c7client "POST" "widgets" (some c7badBody)
        = .error (.errorString "json: unsupported type: chan int") ∧
    (∃ req, NewRequest c7client "POST" "widgets" (some c7goodBody) = .ok req ∧
      headerGet req.header "Accept" = some "application/json" ∧
      headerGet req.header "Content-Type" = some "application/json") ∧
    (∃ req, NewRequest c7client "GET" "widgets" none = .ok req ∧
      headerGet req.header "Accept" = some "application/json" ∧
      headerGet req.header "Content-Type" = none) := by
  have h := C7_headers_and_encode_failure c7client "POST" "widgets" rfl (by decide)
  have h2 := C7_headers_and_encode_failure c7client "GET" "widgets" rfl (by decide)
  refine ⟨h.1 c7badBody _ rfl, ⟨_, rfl, ?_, ?_⟩, ⟨_, rfl, ?_, ?_⟩⟩
  · exact ((h.2 (some c7goodBody) _ rfl).1)
  · exact ((h.2 (some c7goodBody) _ rfl).2.mpr rfl)
  · exact ((h2.2 none _ rfl).1)
  · rfl

/-- C9: a relative path containing `..` segments can escape above the base
    URL's path: with base path `/v1` the relative path `../admin` yields
    the request path `/admin`, because `path.Join` cleans the dot-dot
    against the base path before the reference is resolved. -/
theorem C9_dotdot_escapes_base_path :
    c9client.baseURL.path = "/v1" ∧
    gopath.Join c9client.baseURL.path "../admin" = "/admin" ∧
    ∃ req, NewRequest c9client "GET" "../admin" none = .ok req ∧
      req.url.path = "/admin" :=
  ⟨rfl, rfl, _, rfl, rfl⟩
